import Mathlib

/-!
# Verification of the ak-sheets core against its specification

Shallow embedding of the ak-sheets library core (retry/backoff executor,
format normalizer, merge engine, facade policies) and proofs of the
specification claims about it.

JavaScript runtime values that matter here (strings, numbers, booleans,
null/undefined, truthiness of `x || y`) are modelled explicitly; machine
strings are Lean `String`s manipulated through their character lists.
-/

namespace AkSheets

/-- A JavaScript scalar cell value, as allowed by the spec's data model
(`Records(rows: sequence of mapping<string, scalar>)`). `null` also stands
in for `undefined` where only truthiness matters. -/
inductive Scalar
  | str (s : String)
  | num (n : Int)
  | boolean (b : Bool)
  | null
  deriving DecidableEq, Repr

/-- JavaScript truthiness of a scalar: `""`, `0`, `false`, `null` are falsy. -/
def Scalar.truthy : Scalar → Bool
  | .str s => s ≠ ""
  | .num n => n ≠ 0
  | .boolean b => b
  | .null => false

/-- JavaScript `a || b` on scalars. -/
def jsOr (a b : Scalar) : Scalar := if a.truthy then a else b

/-- Whether a scalar is a string value. -/
def Scalar.isStr : Scalar → Bool
  | .str _ => true
  | _ => false

/-- JavaScript `String(v)` / `v.toString()` on a scalar. -/
def Scalar.jsToString : Scalar → String
  | .str s => s
  | .num n => toString n
  | .boolean b => if b then "true" else "false"
  | .null => "null"

/-! ## Retry/Backoff Executor (`retryWithBackoff`, src/unnamed/part_000:79-126) -/

/-- A JavaScript error as observed by `retryWithBackoff`: an optional numeric
`code` field and a message string. -/
structure JsError where
  code : Option Int
  msg : String
  deriving DecidableEq, Repr

/-- JavaScript `hay.includes(needle)`: the needle's characters occur
contiguously inside the haystack's characters. -/
def containsSub (needle hay : String) : Bool := decide (needle.data <:+: hay.data)

/-- `isQuotaError` from `retryWithBackoff`: code 429, or the message contains
"Quota exceeded" or "Too many requests". -/
def isQuotaError (e : JsError) : Bool :=
  e.code = some 429 || containsSub "Quota exceeded" e.msg
    || containsSub "Too many requests" e.msg

/-- `isRetryableError` from `retryWithBackoff`: quota error or one of the
server-side codes 500, 502, 503, 504. -/
def isRetryableError (e : JsError) : Bool :=
  isQuotaError e || e.code = some 500 || e.code = some 502
    || e.code = some 503 || e.code = some 504

/-- The `while (currentRetry <= maxRetriesConfig)` loop of `retryWithBackoff`,
starting at retry counter `cur`.  `outcomes k` is the result of the `k`-th
invocation of `apiCall` (the remote call is the only non-determinism, so it is
passed in as an oracle).  Returns the propagated result together with the total
number of invocations of `apiCall` performed from invocation 0.  The loop body:
on success return; on a failure that is not retryable, or when the counter has
reached the configured maximum, rethrow; otherwise wait and increment. -/
def retryFrom (outcomes : Nat → Except JsError α) (maxRetries : Nat) (cur : Nat) :
    Except JsError α × Nat :=
  match outcomes cur with
  | .ok a => (.ok a, cur + 1)
  | .error e =>
    if h : isRetryableError e = true ∧ cur < maxRetries then
      retryFrom outcomes maxRetries (cur + 1)
    else
      (.error e, cur + 1)
termination_by maxRetries - cur
decreasing_by obtain ⟨-, h2⟩ := h; omega

/-- `retryWithBackoff(apiCall)` with retry configuration `maxRetries`:
run the loop from retry counter 0. -/
def retryWithBackoff (outcomes : Nat → Except JsError α) (maxRetries : Nat) :
    Except JsError α × Nat :=
  retryFrom outcomes maxRetries 0

/-- Backoff delay computation from `retryWithBackoff` (lines 109-112):
`baseDelay = 2^currentRetry * 1000`, `delay = min(baseDelay + jitter, maxBackoff)`
where `jitter = Math.random() * 1000` is the sampled jitter in `[0, 1000)`.
Milliseconds are rationals so the real-valued jitter is representable. -/
def computeDelay (attempt : Nat) (jitter maxBackoff : ℚ) : ℚ :=
  let baseDelay : ℚ := 2 ^ attempt * 1000
  min (baseDelay + jitter) maxBackoff

/-! ## Format Normalizer (`makeCSVFromData`, `convertValuesToObjects`,
`csvToJson`, src/unnamed/part_000:742-806, 977-987, 1046-1079)

String manipulation is done on character lists; `String.mk`/`String.data`
mediate. -/

/-- A record: a JavaScript object as an insertion-ordered association list. -/
abbrev Rec := List (String × Scalar)

/-- A 2-D grid row. -/
abbrev Row := List Scalar

/-- JavaScript whitespace for `String.prototype.trim` (the characters relevant
to this development: space, tab, newline, carriage return, form feed,
vertical tab). -/
def jsWhitespace (c : Char) : Bool :=
  c = ' ' || c = '\t' || c = '\n' || c = '\r' || c = '\x0c' || c = '\x0b'

/-- JavaScript `s.trim()` on character lists: strip whitespace from both ends. -/
def trimChars (s : List Char) : List Char :=
  ((s.dropWhile jsWhitespace).reverse.dropWhile jsWhitespace).reverse

/-- `value.replace(/"/g, '""')`: double every double-quote character. -/
def escapeQuotes : List Char → List Char
  | [] => []
  | c :: cs => if c = '"' then '"' :: '"' :: escapeQuotes cs else c :: escapeQuotes cs

/-- Undo CSV quote doubling: each adjacent pair of double quotes becomes one. -/
def unescapeQuotes : List Char → List Char
  | [] => []
  | [c] => [c]
  | c :: d :: cs =>
    if c = '"' ∧ d = '"' then '"' :: unescapeQuotes cs
    else c :: unescapeQuotes (d :: cs)

/-- `parts.join(sep)` on character lists. -/
def intercalateChar (sep : Char) : List (List Char) → List Char
  | [] => []
  | [x] => x
  | x :: y :: tl => x ++ sep :: intercalateChar sep (y :: tl)

/-- Split a character list at every occurrence of `sep` (the separator is
consumed; `n+1` chunks for `n` separators, so the result is never empty). -/
def splitOnChar (sep : Char) : List Char → List (List Char)
  | [] => [[]]
  | c :: cs =>
    if c = sep then [] :: splitOnChar sep cs
    else
      match splitOnChar sep cs with
      | [] => [[c]]
      | f :: rest => (c :: f) :: rest

/-- The `Set`-based key collection of `getUniqueKeys`: first-seen insertion
order, duplicates ignored. -/
def insertKey (acc : List String) (k : String) : List String :=
  if k ∈ acc then acc else acc ++ [k]

/-- `getUniqueKeys(data)` (src/unnamed/part_000:800-806): union of the keys of
all records, in first-seen order. -/
def getUniqueKeys (data : List Rec) : List String :=
  data.foldl (fun acc item => item.foldl (fun a kv => insertKey a kv.1) acc) []

/-- `convertToSafeValue(value)` (src/unnamed/part_000:781-793) restricted to
the spec's scalar cell values: `null` maps to the empty string, primitives
pass through (the object/array branch JSON-stringifies, which cannot arise
for scalars). -/
def convertToSafeValue (v : Scalar) : Scalar :=
  match v with
  | .null => .str ""
  | x => x

/-- One CSV cell of `makeCSVFromData` for record `item` and column `col`:
`undefined`/`null` values produce a bare empty field; any other value is
string-converted, trimmed, truncated to `charLimit`, quote-doubled and wrapped
in double quotes. -/
def cellChars (item : Rec) (col : String) (charLimit : Nat) : List Char :=
  match item.lookup col with
  | none => []
  | some .null => []
  | some v =>
    '"' :: escapeQuotes (((trimChars (convertToSafeValue v).jsToString.data)).take charLimit) ++ ['"']

/-- `makeCSVFromData(data, charLimit)` (src/unnamed/part_000:742-774): header
row is the unquoted comma-joined key union; every data row is the comma-joined
cells, each row (header included) terminated by a newline; empty input yields
the empty string. -/
def makeCSVFromData (data : List Rec) (charLimit : Nat := 50000) : String :=
  match data with
  | [] => ""
  | _ =>
    let columns := getUniqueKeys data
    let headerLine := intercalateChar ',' (columns.map String.data)
    let rows := data.map fun item =>
      intercalateChar ',' (columns.map fun col => cellChars item col charLimit)
    String.mk ((headerLine ++ ['\n']) ++ (rows.map (· ++ ['\n'])).flatten)

/-- Modelled from the spec: the CSV field-level unquoting done by the external
CSV parser (Papa Parse) used by `csvToJson` and `mergeData`, which is not part
of this repository's sources.  A field enclosed in double quotes has the
enclosure stripped and doubled quotes undone; any other field is taken
verbatim.  (The real parser additionally allows separators inside quoted
fields; the claims quantify only over data without embedded separators, where
this field model agrees with it.) -/
def unquoteField (f : List Char) : List Char :=
  if f.head? = some '"' ∧ f.getLast? = some '"' ∧ 2 ≤ f.length then
    unescapeQuotes (f.drop 1).dropLast
  else f

/-- Modelled from the spec: the header-mode record assembly of the external
CSV parser, applied to the non-empty lines.  The first line is the header
(fields unquoted, then trimmed per the header transform of `csvToJson`); each
further line becomes a record pairing each header name with the corresponding
unquoted field, all values as strings. -/
def csvLinesToRecords (lines : List (List Char)) : List Rec :=
  match lines with
  | [] => []
  | hline :: dataLines =>
    let headers := (splitOnChar ',' hline).map fun f => String.mk (trimChars (unquoteField f))
    dataLines.map fun line =>
      let fields := (splitOnChar ',' line).map fun f => String.mk (unquoteField f)
      (headers.zip fields).map fun hf => (hf.1, Scalar.str hf.2)

/-- Modelled from the spec: `csvToRecords(csv)` — the behavior of `csvToJson`
(src/unnamed/part_000:1046-1079), whose parsing is delegated to the external
CSV parser with options `header: true`, `skipEmptyLines: true` and a
header-trimming transform.  Rows are split on newlines and empty lines are
skipped before the header-mode assembly. -/
def csvToJson (csvString : String) : List Rec :=
  csvLinesToRecords ((splitOnChar '\n' csvString.data).filter (fun l => l ≠ []))

/-- `convertValuesToObjects(values)` (src/unnamed/part_000:977-987): row 0 is
the header; every later row becomes an object assigning, for each header cell
in order, `obj[header] = row[index] || ''`.  JavaScript object assignment
updates an existing key in place and appends a new key. -/
def jsObjInsert (obj : Rec) (k : String) (v : Scalar) : Rec :=
  if obj.any (fun p => p.1 = k) then
    obj.map (fun p => if p.1 = k then (k, v) else p)
  else obj ++ [(k, v)]

/-- `row[index] || ''` with out-of-range indexing yielding `undefined`. -/
def rowCell (row : Row) (idx : Nat) : Scalar :=
  jsOr ((row.get? idx).getD .null) (.str "")

/-- The `headers.reduce((obj, header, index) => ...)` accumulation of
`convertValuesToObjects`, with `i` the running index. -/
def buildObjAux (row : Row) (obj : Rec) (i : Nat) : List Scalar → Rec
  | [] => obj
  | h :: hs => buildObjAux row (jsObjInsert obj h.jsToString (rowCell row i)) (i + 1) hs

/-- `convertValuesToObjects(values)` itself (also the spec's `gridToRecords`). -/
def convertValuesToObjects (values : List Row) : List Rec :=
  match values with
  | [] => []
  | headers :: rows => rows.map fun row => buildObjAux row [] 0 headers

/-- Modelled from the spec: `recordsToGrid` — the repository has no standalone
records-to-grid converter (records travel through CSV text instead), so the
spec's Format Normalizer contract is used directly: "positional conversion;
row 0 is header; missing values fill with empty string", with the header being
the first-seen union of keys. -/
def recordsToGrid (rs : List Rec) : List Row :=
  match rs with
  | [] => []
  | _ =>
    ((getUniqueKeys rs).map Scalar.str) ::
      rs.map fun r => (getUniqueKeys rs).map fun k => (r.lookup k).getD (.str "")

/-- The spec's "up to empty-string normalization of missing fields" on a
records value: every record is extended to the full first-seen key union,
missing fields becoming the empty string. -/
def normalizeRecords (rs : List Rec) : List Rec :=
  rs.map fun r => (getUniqueKeys rs).map fun k => (k, (r.lookup k).getD (.str ""))

/-! ## Merge Engine (`mergeData`, src/unnamed/part_000:876-905) -/

/-- A JavaScript exception raised by the merge engine: calling a method of
`undefined` (the empty existing grid has no row 0, so `headers.map` throws). -/
inductive JsException
  | typeError
  deriving DecidableEq, Repr

/-- The three runtime shapes `mergeData`'s `newData` argument can have:
a CSV string, an array of row arrays, or an array of record objects. -/
inductive NewData
  | csv (s : String)
  | arrs (g : List Row)
  | objs (rs : List Rec)

/-- Modelled from the spec: `Papa.parse(newData).data` for the CSV branch of
`mergeData` — parsing without a header row, each line split into unquoted
fields (the external parser is not part of this repository's sources;
as with `unquoteField`, this agrees with it on data without embedded
separators). -/
def parseCsvGrid (s : String) : List Row :=
  (splitOnChar '\n' s.data).map fun line =>
    (splitOnChar ',' line).map fun f => Scalar.str (String.mk (unquoteField f))

/-- The `Records` projection of `mergeData` (line 887):
`item => headers.map(header => item[header] || '')`.  A header cell is used as
the JavaScript property key via its string conversion; a missing key gives
`undefined`, and `|| ''` replaces any falsy value by the empty string. -/
def projectRecord (headers : Row) (item : Rec) : Row :=
  headers.map fun h => jsOr ((item.lookup h.jsToString).getD .null) (.str "")

/-- Normalization of `newData` in `mergeData` (lines 882-887).  The JavaScript
tests are `Array.isArray(newData) && Array.isArray(newData[0])` for the grid
branch (false for an empty array, whose first element is `undefined`) and the
record projection otherwise; projecting a non-empty record list over an absent
(`undefined`) header throws a `TypeError`, while an empty list maps to `[]`
without ever touching the header. -/
def processNewData (headers? : Option Row) : NewData → Except JsException (List Row)
  | .csv _ => .ok []
  | .arrs g =>
    match g with
    | _ :: _ => .ok g
    | [] => .ok []
  | .objs rs =>
    match rs, headers? with
    | [], _ => .ok []
    | _ :: _, some hdr => .ok (rs.map (projectRecord hdr))
    | _ :: _, none => .error .typeError

/-- The row-replacement loop of `mergeData` (lines 893-902) over the existing
grid's tail, with `i` the 1-based row index: row `i` is
`processedNewData[i - 1]` when `i <= processedNewData.length`, else the
existing row. -/
def mergeTail (processed : List Row) (exTail : List Row) (i : Nat) : List Row :=
  match exTail with
  | [] => []
  | r :: rest =>
    (if i ≤ processed.length then processed.getD (i - 1) [] else r) ::
      mergeTail processed rest (i + 1)

/-- `mergeData(existingData, newData)` (src/unnamed/part_000:876-905).  The
result rows are `Option Row` because the function reads `existingData[0]` with
no guard: for an empty existing grid the output's row 0 is the absent
(`undefined`) header, modelled as `none`. -/
def mergeData (existingData : List Row) (newData0 : NewData) :
    Except JsException (List (Option Row)) :=
  let newData :=
    match newData0 with
    | .csv s => NewData.arrs (parseCsvGrid s)
    | x => x
  match processNewData existingData.head? newData with
  | .error e => .error e
  | .ok processed =>
    .ok (existingData.head? :: (mergeTail processed existingData.tail 1).map some)

/-! ## Spreadsheet Operations Facade -/

/-- The not-found recovery of `writeToSheet` (src/unnamed/part_000:429-443):
on an error with `code === 404` the facade creates a fresh spreadsheet and
replays the whole write against it; any other error is rethrown.
`attemptOutcome k` is the remote outcome of the `k`-th write attempt (each
recursive invocation makes exactly one); `fuel` bounds the modelled recursion
depth (the JavaScript recursion carries no such bound, so the claims are
proved for every fuel value).  Returns the final result and the number of
fresh spreadsheets created. -/
def writeToSheet (attemptOutcome : Nat → Except JsError α) :
    Nat → Nat → Except JsError α × Nat
  | fuel, k =>
    match attemptOutcome k with
    | .ok a => (.ok a, 0)
    | .error e =>
      if e.code = some 404 then
        match fuel with
        | 0 => (.error e, 0)
        | fuel' + 1 =>
          let r := writeToSheet attemptOutcome fuel' (k + 1)
          (r.1, r.2 + 1)
      else (.error e, 0)

/-- `getURL(spreadsheetId)` (src/unnamed/part_000:646-648): pure string
formatting, no initialization guard and no remote call. -/
def getURL (spreadsheetId : String) : String :=
  "https://docs.google.com/spreadsheets/d/" ++ spreadsheetId

/-- The operations of the library surface that contact the remote service,
plus the pure `getURL`.  (The remaining exports — `makeCSVFromData`,
`csvToJson`, `jsonToCsv`, `readXlsxFile` — are local converters modelled
separately.) -/
inductive SurfaceOp
  | createSheet | writeToSheet | writeToSheetTabs | shareSheet | deleteSheet
  | listOwnedSpreadsheets | deleteAllSheets | getSheet | updateSheet
  | appendToSheet | clearSheet | getSheetInfo | getRange | writeToRange
  | addTab | deleteTab | renameTab | duplicateTab | listTabs
  | getURL (id : String)
  deriving DecidableEq, Repr

/-- Whether an operation's implementation performs remote calls. -/
def SurfaceOp.isRemote : SurfaceOp → Bool
  | .getURL _ => false
  | _ => true

/-- Observable outcome of invoking a surface operation. -/
inductive OpOutcome
  | threw (m : String)
  | returned (s : String)
  deriving DecidableEq, Repr

/-- The error message of every initialization guard. -/
def notInitMsg : String := "ak-sheets not initialized. Call init() first."

/-- Behavior of each surface operation when invoked before `init`: every
remote operation's body starts with `if (!sheets) throw ...` (or `!drive`,
or both; `deleteAllSheets` reaches the guard through its first call,
`listOwnedSpreadsheets`) before any remote call, while `getURL` has no guard
and simply returns the formatted URL.  The second component counts remote
calls performed. -/
def runBeforeInit : SurfaceOp → OpOutcome × Nat
  | .createSheet => (.threw notInitMsg, 0)
  | .writeToSheet => (.threw notInitMsg, 0)
  | .writeToSheetTabs => (.threw notInitMsg, 0)
  | .shareSheet => (.threw notInitMsg, 0)
  | .deleteSheet => (.threw notInitMsg, 0)
  | .listOwnedSpreadsheets => (.threw notInitMsg, 0)
  | .deleteAllSheets => (.threw notInitMsg, 0)
  | .getSheet => (.threw notInitMsg, 0)
  | .updateSheet => (.threw notInitMsg, 0)
  | .appendToSheet => (.threw notInitMsg, 0)
  | .clearSheet => (.threw notInitMsg, 0)
  | .getSheetInfo => (.threw notInitMsg, 0)
  | .getRange => (.threw notInitMsg, 0)
  | .writeToRange => (.threw notInitMsg, 0)
  | .addTab => (.threw notInitMsg, 0)
  | .deleteTab => (.threw notInitMsg, 0)
  | .renameTab => (.threw notInitMsg, 0)
  | .duplicateTab => (.threw notInitMsg, 0)
  | .listTabs => (.threw notInitMsg, 0)
  | .getURL id => (.returned (getURL id), 0)

/-! ## Tab color decoding (`addTab`, src/unnamed/part_000:1455-1470) -/

/-- Value of a hexadecimal digit character, if it is one. -/
def hexDigitVal (c : Char) : Option Nat :=
  if 48 ≤ c.toNat ∧ c.toNat ≤ 57 then some (c.toNat - 48)
  else if 97 ≤ c.toNat ∧ c.toNat ≤ 102 then some (c.toNat - 87)
  else if 65 ≤ c.toNat ∧ c.toNat ≤ 70 then some (c.toNat - 55)
  else none

/-- JavaScript `s.slice(a, b)` on character lists. -/
def jsSlice (s : List Char) (a b : Nat) : List Char := (s.drop a).take (b - a)

/-- JavaScript `parseInt(s, 16)`: parse the maximal leading run of hex digits;
`none` models `NaN` (no leading digit). -/
def parseIntHex (s : List Char) : Option Nat :=
  let ds := s.takeWhile fun c => (hexDigitVal c).isSome
  match ds with
  | [] => none
  | _ => some (ds.foldl (fun a c => a * 16 + (hexDigitVal c).getD 0) 0)

/-- The `tabColor` decoding of `addTab`'s `addSheet` request:
`red: parseInt(tabColor.slice(1, 3), 16) / 255` and likewise `green` from
`slice(3, 5)` and `blue` from `slice(5, 7)`.  Channels are rationals; `none`
models a `NaN` channel. -/
def decodeTabColor (tabColor : String) : Option (ℚ × ℚ × ℚ) :=
  match parseIntHex (jsSlice tabColor.data 1 3),
      parseIntHex (jsSlice tabColor.data 3 5),
      parseIntHex (jsSlice tabColor.data 5 7) with
  | some r, some g, some b => some ((r : ℚ) / 255, (g : ℚ) / 255, (b : ℚ) / 255)
  | _, _, _ => none

/-! ## Claim C2: exponential backoff delay -/

/-- C2.  For every retry attempt `n` (counted from 0) and every jitter draw in
`[0, 1000)`, the backoff delay equals `min(2^n * 1000 + jitter, maxBackoffMs)`;
for every sequence of jitter draws the successive delays are non-decreasing,
and every delay is at most `maxBackoffMs`. -/
theorem backoff_delay_capped_monotone (js : Nat → ℚ) (cap : ℚ) (n : Nat)
    (hlo : ∀ k, 0 ≤ js k) (hhi : ∀ k, js k < 1000) :
    computeDelay n (js n) cap = min (2 ^ n * 1000 + js n) cap
      ∧ computeDelay n (js n) cap ≤ computeDelay (n + 1) (js (n + 1)) cap
      ∧ computeDelay n (js n) cap ≤ cap := by
  refine ⟨rfl, ?_, min_le_right _ _⟩
  unfold computeDelay
  refine min_le_min ?_ le_rfl
  have h1 : (1 : ℚ) ≤ 2 ^ n := one_le_pow₀ (by norm_num)
  have h2 : (2 : ℚ) ^ (n + 1) = 2 * 2 ^ n := by ring
  have h3 := hlo (n + 1)
  have h4 := hhi n
  nlinarith

/-- Witness for C2 at attempt 0 with zero jitter and a 64000 ms cap. -/
theorem backoff_delay_witness :
    computeDelay 0 0 64000 = min (2 ^ 0 * 1000 + 0) 64000
      ∧ computeDelay 0 0 64000 ≤ computeDelay 1 0 64000
      ∧ computeDelay 0 0 64000 ≤ 64000 :=
  backoff_delay_capped_monotone (fun _ => 0) 64000 0 (fun _ => le_refl 0)
    (fun _ => by norm_num)

/-! ## Claim C7: not-found recovery in `writeToSheet` -/

/-- C7.  If the remote write fails with a 404 on the first attempt and the
replay against the freshly created spreadsheet succeeds, `writeToSheet`
returns that success after exactly one recreation — for every modelled
recursion budget, so the recovery never loops. -/
theorem write_not_found_recovery (oc : Nat → Except JsError Nat) (e : JsError)
    (a : Nat) (fuel : Nat) (h0 : oc 0 = .error e) (h404 : e.code = some 404)
    (h1 : oc 1 = .ok a) :
    writeToSheet oc (fuel + 1) 0 = (.ok a, 1) := by
  rw [writeToSheet, h0]
  simp only [h404, if_pos rfl, reduceIte]
  rw [writeToSheet, h1]

/-- Witness for C7: a write whose first attempt hits 404 and whose replay
returns 5 updated cells, with recursion budget 10. -/
theorem write_not_found_recovery_witness :
    writeToSheet
        (fun k => if k = 0 then .error ⟨some 404, "File not found"⟩ else .ok 5)
        10 0
      = (.ok 5, 1) :=
  write_not_found_recovery _ ⟨some 404, "File not found"⟩ 5 9 rfl rfl rfl

/-! ## Claim C8: fail-fast before initialization -/

/-- C8 counterexample.  `getURL` is an operation of the library surface, yet
before `init` it returns the formatted URL instead of throwing the
not-initialized error. -/
theorem uninit_getURL_returns :
    runBeforeInit (.getURL "abc")
        = (.returned "https://docs.google.com/spreadsheets/d/abc", 0)
      ∧ (runBeforeInit (.getURL "abc")).1 ≠ .threw notInitMsg := by
  exact ⟨rfl, by decide⟩

/-- C8 amended.  Every surface operation that performs remote calls fails fast
before `init` with the not-initialized error and performs no remote call,
while the pure `getURL` returns its URL, also without any remote call. -/
theorem uninit_fail_fast (op : SurfaceOp) (hrem : op.isRemote = true) :
    runBeforeInit op = (.threw notInitMsg, 0)
      ∧ ∀ id, runBeforeInit (.getURL id) = (.returned (getURL id), 0) := by
  refine ⟨?_, fun _ => rfl⟩
  cases op <;> first | rfl | simp [SurfaceOp.isRemote] at hrem

/-- Witness for C8 (amended) at `createSheet`. -/
theorem uninit_fail_fast_witness :
    runBeforeInit .createSheet = (.threw notInitMsg, 0)
      ∧ ∀ id, runBeforeInit (.getURL id) = (.returned (getURL id), 0) :=
  uninit_fail_fast .createSheet rfl

/-! ## Claim C9: tab color decoding -/

/-- Every hexadecimal digit has value at most 15. -/
theorem hexDigitVal_le (c : Char) (v : Nat) (h : hexDigitVal c = some v) :
    v ≤ 15 := by
  unfold hexDigitVal at h
  split_ifs at h <;> simp_all <;> omega

/-- C9.  For a 6-hex-digit color string (in the `#RRGGBB` form the code
documents), the decoded tab color's red, green and blue channels are the
first, second and third two-hex-digit values divided by 255, and each channel
is a fraction in `[0, 1]`. -/
theorem tab_color_decode (c1 c2 c3 c4 c5 c6 : Char) (v1 v2 v3 v4 v5 v6 : Nat)
    (h1 : hexDigitVal c1 = some v1) (h2 : hexDigitVal c2 = some v2)
    (h3 : hexDigitVal c3 = some v3) (h4 : hexDigitVal c4 = some v4)
    (h5 : hexDigitVal c5 = some v5) (h6 : hexDigitVal c6 = some v6) :
    decodeTabColor (String.mk ['#', c1, c2, c3, c4, c5, c6])
        = some (((16 * v1 + v2 : Nat) : ℚ) / 255, ((16 * v3 + v4 : Nat) : ℚ) / 255,
            ((16 * v5 + v6 : Nat) : ℚ) / 255)
      ∧ (0 ≤ ((16 * v1 + v2 : Nat) : ℚ) / 255 ∧ ((16 * v1 + v2 : Nat) : ℚ) / 255 ≤ 1)
      ∧ (0 ≤ ((16 * v3 + v4 : Nat) : ℚ) / 255 ∧ ((16 * v3 + v4 : Nat) : ℚ) / 255 ≤ 1)
      ∧ (0 ≤ ((16 * v5 + v6 : Nat) : ℚ) / 255 ∧ ((16 * v5 + v6 : Nat) : ℚ) / 255 ≤ 1) := by
  have key : ∀ (a b : Char) (va vb : Nat), hexDigitVal a = some va →
      hexDigitVal b = some vb → parseIntHex [a, b] = some (16 * va + vb) := by
    intro a b va vb ha hb
    unfold parseIntHex
    simp [List.takeWhile, ha, hb]
    omega
  have bound : ∀ (a b : Char) (va vb : Nat), hexDigitVal a = some va →
      hexDigitVal b = some vb →
      0 ≤ ((16 * va + vb : Nat) : ℚ) / 255 ∧ ((16 * va + vb : Nat) : ℚ) / 255 ≤ 1 := by
    intro a b va vb ha hb
    have hva := hexDigitVal_le a va ha
    have hvb := hexDigitVal_le b vb hb
    constructor
    · positivity
    · rw [div_le_one (by norm_num)]
      have : (16 * va + vb : Nat) ≤ 255 := by omega
      exact_mod_cast this
  refine ⟨?_, bound c1 c2 v1 v2 h1 h2, bound c3 c4 v3 v4 h3 h4, bound c5 c6 v5 v6 h5 h6⟩
  unfold decodeTabColor
  have s1 : jsSlice (String.mk ['#', c1, c2, c3, c4, c5, c6]).data 1 3 = [c1, c2] := rfl
  have s2 : jsSlice (String.mk ['#', c1, c2, c3, c4, c5, c6]).data 3 5 = [c3, c4] := rfl
  have s3 : jsSlice (String.mk ['#', c1, c2, c3, c4, c5, c6]).data 5 7 = [c5, c6] := rfl
  rw [s1, s2, s3, key c1 c2 v1 v2 h1 h2, key c3 c4 v3 v4 h3 h4, key c5 c6 v5 v6 h5 h6]

/-- Witness for C9 at `#FF8040`. -/
theorem tab_color_decode_witness :
    decodeTabColor (String.mk ['#', 'F', 'F', '8', '0', '4', '0'])
        = some (((16 * 15 + 15 : Nat) : ℚ) / 255, ((16 * 8 + 0 : Nat) : ℚ) / 255,
            ((16 * 4 + 0 : Nat) : ℚ) / 255)
      ∧ (0 ≤ ((16 * 15 + 15 : Nat) : ℚ) / 255 ∧ ((16 * 15 + 15 : Nat) : ℚ) / 255 ≤ 1)
      ∧ (0 ≤ ((16 * 8 + 0 : Nat) : ℚ) / 255 ∧ ((16 * 8 + 0 : Nat) : ℚ) / 255 ≤ 1)
      ∧ (0 ≤ ((16 * 4 + 0 : Nat) : ℚ) / 255 ∧ ((16 * 4 + 0 : Nat) : ℚ) / 255 ≤ 1) :=
  tab_color_decode 'F' 'F' '8' '0' '4' '0' 15 15 8 0 4 0 rfl rfl rfl rfl rfl rfl

/-! ## Claim C10: merge on an empty existing grid -/

/-- C10.  `mergeData` reads row 0 of the existing grid with no guard: on an
empty existing grid the returned grid's row 0 is the absent (`undefined`)
header, and if the new data is a non-empty record list, the projection over
the absent header throws a `TypeError` instead of returning a grid. -/
theorem merge_empty_grid_unsafe (rs : List Rec) (g : List Row) (hne : rs ≠ []) :
    mergeData [] (.objs rs) = .error .typeError
      ∧ mergeData [] (.arrs g) = .ok [none] := by
  constructor
  · cases rs with
    | nil => exact absurd rfl hne
    | cons r tl => rfl
  · cases g <;> rfl

/-- Witness for C10 with a one-record new data value and a one-row grid. -/
theorem merge_empty_grid_unsafe_witness :
    mergeData [] (.objs [[("a", Scalar.str "x")]]) = .error .typeError
      ∧ mergeData [] (.arrs [[Scalar.str "x"]]) = .ok [none] :=
  merge_empty_grid_unsafe [[("a", Scalar.str "x")]] [[Scalar.str "x"]] (by decide)

/-! ## Claim C3: positional merge of a grid -/

/-- The row-replacement loop written as an index map: row at offset `j` of the
tail (1-based overall index `i + j` when starting at `i`) comes from the
processed new data while in its range and from the existing tail otherwise. -/
theorem mergeTail_eq_map (p : List Row) :
    ∀ (t : List Row) (i : Nat),
      mergeTail p t i
        = (List.range t.length).map
            (fun j => if i + j ≤ p.length then p.getD (i + j - 1) [] else t.getD j []) := by
  intro t
  induction t with
  | nil => intro i; simp [mergeTail]
  | cons r rest ih =>
    intro i
    rw [mergeTail, ih (i + 1)]
    rw [List.length_cons, List.range_succ_eq_map, List.map_cons, List.map_map]
    congr 1
    apply List.map_congr_left
    intro j hj
    simp only [Function.comp_apply, Nat.succ_eq_add_one, List.getD_cons_succ]
    have e1 : i + 1 + j = i + (j + 1) := by omega
    rw [e1]

/-- C3.  Merging a non-empty existing grid with a grid of new data keeps
row 0 (the header) unchanged and produces one output row per existing row:
the row at index `j + 1` is new-data row `j` while the new data lasts and the
untouched existing row after that; rows of the new data beyond the existing
grid's length are not appended (the output length equals the existing
length).  The second part is the spec's concrete example. -/
theorem merge_grid_positional :
    (∀ (h : Row) (t : List Row) (g : List Row),
        mergeData (h :: t) (.arrs g)
          = .ok (some h ::
              (List.range t.length).map fun j =>
                some (if j + 1 ≤ g.length then g.getD j [] else t.getD j []))
        ∧ ∀ out, mergeData (h :: t) (.arrs g) = .ok out → out.length = (h :: t).length)
    ∧ mergeData
        [[Scalar.str "h1", Scalar.str "h2"], [Scalar.str "a", Scalar.str "b"],
          [Scalar.str "c", Scalar.str "d"], [Scalar.str "e", Scalar.str "f"]]
        (.arrs [[Scalar.str "x", Scalar.str "y"]])
      = .ok [some [Scalar.str "h1", Scalar.str "h2"], some [Scalar.str "x", Scalar.str "y"],
          some [Scalar.str "c", Scalar.str "d"], some [Scalar.str "e", Scalar.str "f"]] := by
  have main : ∀ (h : Row) (t : List Row) (g : List Row),
      mergeData (h :: t) (.arrs g)
        = .ok (some h ::
            (List.range t.length).map fun j =>
              some (if j + 1 ≤ g.length then g.getD j [] else t.getD j [])) := by
    intro h t g
    have hbase : mergeData (h :: t) (.arrs g)
        = .ok (some h :: (mergeTail g t 1).map some) := by
      cases g with
      | nil => rfl
      | cons a tl => rfl
    rw [hbase, mergeTail_eq_map, List.map_map]
    congr 2
    apply List.map_congr_left
    intro j hj
    simp only [Function.comp_apply]
    rw [Nat.add_comm 1 j, Nat.add_sub_cancel]
  refine ⟨fun h t g => ⟨main h t g, fun out hout => ?_⟩, ?_⟩
  · rw [main h t g] at hout
    injection hout with h2
    rw [← h2]
    simp
  · rw [main]
    rfl

/-- Witness for C3's length statement at a concrete grid. -/
theorem merge_grid_positional_witness :
    mergeData [[Scalar.str "H"], [Scalar.str "r1"]] (.arrs [[Scalar.str "z"]])
        = .ok [some [Scalar.str "H"], some [Scalar.str "z"]]
      ∧ [some [Scalar.str "H"], some [Scalar.str "z"]].length
          = [[Scalar.str "H"], [Scalar.str "r1"]].length := by
  have h := (merge_grid_positional.1 [Scalar.str "H"] [[Scalar.str "r1"]] [[Scalar.str "z"]])
  have heq : mergeData [[Scalar.str "H"], [Scalar.str "r1"]] (.arrs [[Scalar.str "z"]])
      = .ok [some [Scalar.str "H"], some [Scalar.str "z"]] := by
    rw [h.1]; rfl
  exact ⟨heq, h.2 _ heq⟩

/-! ## Claim C4: record projection in merge -/

/-- C4 counterexample.  Merging with the record `{h: 0}` over header `["h"]`
produces the cell `""`, not the record's value `0`, although the key `h` is
present: `item[header] || ''` replaces every falsy value (not only missing
keys) by the empty string. -/
theorem merge_records_falsy_counterexample :
    mergeData [[Scalar.str "h"], [Scalar.str "old"]] (.objs [[("h", Scalar.num 0)]])
        = .ok [some [Scalar.str "h"], some [Scalar.str ""]]
      ∧ List.lookup "h" [("h", Scalar.num 0)] = some (Scalar.num 0)
      ∧ Scalar.str "" ≠ Scalar.num 0 := by
  refine ⟨rfl, rfl, by decide⟩

/-- C4 amended.  The `Records` case of `mergeData` behaves exactly like the
grid case applied to the records projected onto the existing header: each
projected row has exactly the header's columns (no new columns), and the cell
for column `j` is the record's value for that column name when the key is
present with a truthy value, and the empty string when the key is missing or
its value is falsy (`null`, `0`, `false`, `""`). -/
theorem merge_records_projection :
    (∀ (hd : Row) (t : List Row) (rs : List Rec),
        mergeData (hd :: t) (.objs rs)
          = mergeData (hd :: t) (.arrs (rs.map (projectRecord hd))))
    ∧ (∀ (hd : Row) (r : Rec), (projectRecord hd r).length = hd.length)
    ∧ (∀ (hd : Row) (r : Rec) (j : Nat), j < hd.length →
        (projectRecord hd r).get? j
          = some (match r.lookup ((hd.getD j .null).jsToString) with
              | some v => if v.truthy = true then v else .str ""
              | none => .str "")) := by
  refine ⟨fun hd t rs => ?_, fun hd r => by simp [projectRecord], fun hd r j hj => ?_⟩
  · cases rs with
    | nil => rfl
    | cons r tl => rfl
  · have hsome : hd.get? j = some (hd.getD j .null) := by
      rw [List.getD_eq_getElem?_getD, List.get?_eq_getElem?, List.getElem?_eq_getElem hj]
      rfl
    rw [projectRecord, List.get?_map, hsome]
    simp only [Option.map_some']
    cases hlu : r.lookup (hd.getD j .null).jsToString with
    | none => simp [jsOr, Scalar.truthy]
    | some v => cases v <;> simp [jsOr, Scalar.truthy]

/-- Witness for C4 (amended): header `["h1", "h2"]` against a record holding a
truthy value for `h1` only. -/
theorem merge_records_projection_witness :
    (projectRecord [Scalar.str "h1", Scalar.str "h2"] [("h1", Scalar.str "v")]).get? 1
        = some (Scalar.str "")
      ∧ (projectRecord [Scalar.str "h1", Scalar.str "h2"] [("h1", Scalar.str "v")]).get? 0
        = some (Scalar.str "v") := by
  constructor
  · have h := merge_records_projection.2.2 [Scalar.str "h1", Scalar.str "h2"]
      [("h1", Scalar.str "v")] 1 (by decide)
    rw [h]; decide
  · have h := merge_records_projection.2.2 [Scalar.str "h1", Scalar.str "h2"]
      [("h1", Scalar.str "v")] 0 (by decide)
    rw [h]; decide

/-! ## Claim C5: uniform CSV quoting -/

/-- Quote doubling produces the empty list only from the empty list. -/
theorem escapeQuotes_eq_nil_iff (s : List Char) : escapeQuotes s = [] ↔ s = [] := by
  cases s with
  | nil => simp [escapeQuotes]
  | cons c cs =>
    simp only [escapeQuotes]
    split <;> simp

/-- Undoing quote doubling recovers the original character list. -/
theorem unescape_escape (s : List Char) : unescapeQuotes (escapeQuotes s) = s := by
  induction s with
  | nil => rfl
  | cons c cs ih =>
    by_cases hc : c = '"'
    · subst hc
      have h1 : escapeQuotes ('"' :: cs) = '"' :: '"' :: escapeQuotes cs := by
        simp [escapeQuotes]
      have h2 : unescapeQuotes ('"' :: '"' :: escapeQuotes cs)
          = '"' :: unescapeQuotes (escapeQuotes cs) := by
        simp [unescapeQuotes]
      rw [h1, h2, ih]
    · have h1 : escapeQuotes (c :: cs) = c :: escapeQuotes cs := by
        simp [escapeQuotes, hc]
      rw [h1]
      cases hcs : escapeQuotes cs with
      | nil =>
        have : cs = [] := (escapeQuotes_eq_nil_iff cs).1 hcs
        subst this
        rfl
      | cons d tl =>
        have h2 : unescapeQuotes (c :: d :: tl) = c :: unescapeQuotes (d :: tl) := by
          simp only [unescapeQuotes]
          rw [if_neg]
          intro hand
          exact hc hand.1
        rw [h2, ← hcs, ih]

/-- C5 counterexample.  The record list `[{a: null}]` produces the CSV
`"a\n\n"`: the null cell is the bare empty field, and no double quote occurs
anywhere in the output — so not every cell is wrapped in double quotes. -/
theorem csv_null_cell_unquoted_counterexample :
    makeCSVFromData [[("a", Scalar.null)]] 50000 = "a\n\n"
      ∧ ∀ c ∈ (makeCSVFromData [[("a", Scalar.null)]] 50000).data, c ≠ '"' := by
  refine ⟨by decide, by decide⟩

/-- C5 amended.  Every cell whose source value is present and non-null is
wrapped in double quotes around the quote-doubled, trimmed, truncated string
conversion of the value (and the doubling is faithful: undoing it recovers the
cell content); a missing or null value instead produces a bare empty unquoted
field.  The spec's concrete example: `{name: 'He said "hi"'}` yields the
double-quoted cell containing `""hi""`. -/
theorem csv_cell_quoting (item : Rec) (col : String) (lim : Nat) (v : Scalar)
    (hv : item.lookup col = some v) (hnn : v ≠ .null) :
    (cellChars item col lim
        = '"' :: escapeQuotes ((trimChars (convertToSafeValue v).jsToString.data).take lim)
            ++ ['"']
      ∧ unescapeQuotes
            (escapeQuotes ((trimChars (convertToSafeValue v).jsToString.data).take lim))
          = (trimChars (convertToSafeValue v).jsToString.data).take lim)
    ∧ (∀ (item' : Rec) (col' : String) (lim' : Nat),
        item'.lookup col' = none ∨ item'.lookup col' = some .null →
        cellChars item' col' lim' = [])
    ∧ makeCSVFromData [[("name", Scalar.str "He said \"hi\"")]] 50000
        = "name\n\"He said \"\"hi\"\"\"\n"
    ∧ containsSub "\"\"hi\"\"" (makeCSVFromData [[("name", Scalar.str "He said \"hi\"")]] 50000)
        = true := by
  refine ⟨⟨?_, unescape_escape _⟩, ?_, by decide, by decide⟩
  · rw [cellChars, hv]
    cases v with
    | null => exact absurd rfl hnn
    | str s => rfl
    | num n => rfl
    | boolean b => rfl
  · intro item' col' lim' hmiss
    cases hmiss with
    | inl h => rw [cellChars, h]
    | inr h => rw [cellChars, h]

/-- Witness for C5 (amended) at the record `{a: "x"}` and column `a`. -/
theorem csv_cell_quoting_witness :
    (cellChars [("a", Scalar.str "x")] "a" 50000
        = '"' :: escapeQuotes
              ((trimChars (convertToSafeValue (Scalar.str "x")).jsToString.data).take 50000)
            ++ ['"']
      ∧ unescapeQuotes
            (escapeQuotes
              ((trimChars (convertToSafeValue (Scalar.str "x")).jsToString.data).take 50000))
          = (trimChars (convertToSafeValue (Scalar.str "x")).jsToString.data).take 50000)
    ∧ (∀ (item' : Rec) (col' : String) (lim' : Nat),
        item'.lookup col' = none ∨ item'.lookup col' = some .null →
        cellChars item' col' lim' = [])
    ∧ makeCSVFromData [[("name", Scalar.str "He said \"hi\"")]] 50000
        = "name\n\"He said \"\"hi\"\"\"\n"
    ∧ containsSub "\"\"hi\"\"" (makeCSVFromData [[("name", Scalar.str "He said \"hi\"")]] 50000)
        = true :=
  csv_cell_quoting [("a", Scalar.str "x")] "a" 50000 (Scalar.str "x") rfl (by decide)

/-! ## Claim C1: retry classification and bounds -/

/-- The retry loop performs at most `maxRetries + 1` invocations when started
at any counter value not above the maximum. -/
theorem retryFrom_calls_le (o : Nat → Except JsError α) (maxRetries : Nat) :
    ∀ (d cur : Nat), maxRetries - cur = d → cur ≤ maxRetries →
      (retryFrom o maxRetries cur).2 ≤ maxRetries + 1 := by
  intro d
  induction d with
  | zero =>
    intro cur hd hle
    rw [retryFrom]
    split
    · exact Nat.succ_le_succ hle
    · rw [dif_neg (fun hand => absurd hand.2 (by omega))]
      exact Nat.succ_le_succ hle
  | succ n ih =>
    intro cur hd hle
    rw [retryFrom]
    split
    · exact Nat.succ_le_succ hle
    next e he =>
      by_cases hr : isRetryableError e = true ∧ cur < maxRetries
      · rw [dif_pos hr]
        exact ih (cur + 1) (by omega) (by omega)
      · rw [dif_neg hr]
        exact Nat.succ_le_succ hle

/-- If every invocation up to the maximum fails with a retryable error, the
loop performs exactly the `maxRetries + 1` allowed invocations and propagates
the last error. -/
theorem retryFrom_all_retryable (o : Nat → Except JsError α) (maxRetries : Nat)
    (errs : Nat → JsError)
    (hall : ∀ k, k ≤ maxRetries → o k = .error (errs k) ∧ isRetryableError (errs k) = true) :
    ∀ (d cur : Nat), maxRetries - cur = d → cur ≤ maxRetries →
      retryFrom o maxRetries cur = (.error (errs maxRetries), maxRetries + 1) := by
  intro d
  induction d with
  | zero =>
    intro cur hd hle
    have hcur : cur = maxRetries := by omega
    subst hcur
    rw [retryFrom]
    split
    next a ha =>
      rw [(hall cur le_rfl).1] at ha
      simp at ha
    next e he =>
      rw [(hall cur le_rfl).1] at he
      injection he with he'
      subst he'
      rw [dif_neg (fun hand => absurd hand.2 (by omega))]
  | succ n ih =>
    intro cur hd hle
    have hlt : cur < maxRetries := by omega
    rw [retryFrom]
    split
    next a ha =>
      rw [(hall cur hle).1] at ha
      simp at ha
    next e he =>
      rw [(hall cur hle).1] at he
      injection he with he'
      subst he'
      rw [dif_pos ⟨(hall cur hle).2, hlt⟩]
      exact ih (cur + 1) (by omega) (by omega)

/-- C1.  The executor classifies an error as retryable exactly when its code
is 429, 500, 502, 503 or 504 or its message signals quota exhaustion or too
many requests; a non-retryable first failure is propagated immediately after a
single invocation; the wrapped operation is invoked at most `maxRetries + 1`
times; and when every invocation fails with a retryable error, the last error
is propagated after exactly `maxRetries + 1` invocations (`maxRetries`
retries). -/
theorem retry_classification_and_bounds (o : Nat → Except JsError Nat)
    (maxRetries : Nat) (e : JsError) (errs : Nat → JsError) :
    (isRetryableError e = true ↔
        e.code = some 429 ∨ e.code = some 500 ∨ e.code = some 502 ∨ e.code = some 503
          ∨ e.code = some 504 ∨ containsSub "Quota exceeded" e.msg = true
          ∨ containsSub "Too many requests" e.msg = true)
      ∧ (o 0 = .error e → isRetryableError e = false →
          retryWithBackoff o maxRetries = (.error e, 1))
      ∧ (retryWithBackoff o maxRetries).2 ≤ maxRetries + 1
      ∧ ((∀ k, k ≤ maxRetries → o k = .error (errs k) ∧ isRetryableError (errs k) = true) →
          retryWithBackoff o maxRetries = (.error (errs maxRetries), maxRetries + 1)) := by
  refine ⟨?_, ?_, ?_, ?_⟩
  · simp only [isRetryableError, isQuotaError, Bool.or_eq_true, decide_eq_true_eq]
    tauto
  · intro h0 hnr
    rw [retryWithBackoff, retryFrom]
    split
    next a ha =>
      rw [h0] at ha
      simp at ha
    next e' he =>
      rw [h0] at he
      injection he with he'
      subst he'
      rw [dif_neg]
      intro hand
      rw [hnr] at hand
      exact Bool.false_ne_true hand.1
  · exact retryFrom_calls_le o maxRetries maxRetries 0 (by omega) (by omega)
  · intro hall
    exact retryFrom_all_retryable o maxRetries errs hall maxRetries 0 (by omega) (by omega)

/-- Witness for C1: a bad-request error propagates after one invocation, and a
permanently unavailable service exhausts all three allowed invocations with
`maxRetries = 2`. -/
theorem retry_classification_and_bounds_witness :
    retryWithBackoff (fun _ => (.error ⟨some 400, "Invalid request"⟩ : Except JsError Nat)) 2
        = (.error ⟨some 400, "Invalid request"⟩, 1)
      ∧ retryWithBackoff (fun _ => (.error ⟨some 503, "Service unavailable"⟩ : Except JsError Nat)) 2
        = (.error ⟨some 503, "Service unavailable"⟩, 3) := by
  constructor
  · exact (retry_classification_and_bounds
      (fun _ => .error ⟨some 400, "Invalid request"⟩) 2 ⟨some 400, "Invalid request"⟩
      (fun _ => ⟨some 400, "Invalid request"⟩)).2.1 rfl (by decide)
  · exact (retry_classification_and_bounds
      (fun _ => .error ⟨some 503, "Service unavailable"⟩) 2 ⟨some 503, "Service unavailable"⟩
      (fun _ => ⟨some 503, "Service unavailable"⟩)).2.2.2 (fun k hk => ⟨rfl, by decide⟩)

/-! ## Claim C6: conversion round trips

Helper lemmas about key collection, lookup, quoting and splitting, leading to
the amended round-trip theorem. -/

/-- A successful lookup result is a member of the association list. -/
theorem lookup_mem {k : String} {v : Scalar} :
    ∀ {r : Rec}, r.lookup k = some v → (k, v) ∈ r := by
  intro r
  induction r with
  | nil => intro h; simp [List.lookup] at h
  | cons p tl ih =>
    intro h
    rw [List.lookup] at h
    rcases hbeq : k == p.1 with _ | _
    · rw [hbeq] at h
      exact List.mem_cons_of_mem p (ih h)
    · rw [hbeq] at h
      injection h with hv
      have hk : k = p.1 := by simpa using hbeq
      subst hv
      rw [hk]
      exact List.mem_cons_self p tl

/-- A present key has a successful lookup (for its first occurrence's value). -/
theorem lookup_isSome_of_mem {k : String} {v : Scalar} :
    ∀ {r : Rec}, (k, v) ∈ r → ∃ v', r.lookup k = some v' := by
  intro r
  induction r with
  | nil => intro h; simp at h
  | cons p tl ih =>
    intro h
    rw [List.lookup]
    rcases hbeq : k == p.1 with _ | _
    · rcases List.mem_cons.mp h with heq | hmem
      · have : k = p.1 := congrArg Prod.fst heq
        rw [this] at hbeq
        simp at hbeq
      · exact ih hmem
    · exact ⟨p.2, rfl⟩

/-- Membership after inserting a key into the first-seen collection. -/
theorem mem_insertKey (acc : List String) (k x : String) :
    x ∈ insertKey acc k ↔ x ∈ acc ∨ x = k := by
  by_cases h : k ∈ acc
  · simp only [insertKey, if_pos h]
    constructor
    · exact Or.inl
    · rintro (hx | rfl)
      · exact hx
      · exact h
  · simp [insertKey, if_neg h]

/-- Inserting preserves distinctness of the collected keys. -/
theorem insertKey_nodup (acc : List String) (k : String) (h : acc.Nodup) :
    (insertKey acc k).Nodup := by
  by_cases hk : k ∈ acc
  · simpa [insertKey, if_pos hk] using h
  · rw [insertKey, if_neg hk]
    simp [List.nodup_append, h, hk]

/-- Folding a record's keys into the collection adds exactly its key set. -/
theorem mem_foldl_insertKey (r : Rec) :
    ∀ (acc : List String) (x : String),
      x ∈ r.foldl (fun a kv => insertKey a kv.1) acc ↔ x ∈ acc ∨ x ∈ r.map Prod.fst := by
  induction r with
  | nil => simp
  | cons kv tl ih =>
    intro acc x
    rw [List.foldl_cons, ih, mem_insertKey]
    simp [or_assoc]

/-- A name is a collected unique key exactly when some record has it. -/
theorem mem_getUniqueKeys (rs : List Rec) (x : String) :
    x ∈ getUniqueKeys rs ↔ ∃ r ∈ rs, x ∈ r.map Prod.fst := by
  have main : ∀ (acc : List String),
      x ∈ rs.foldl (fun acc item => item.foldl (fun a kv => insertKey a kv.1) acc) acc
        ↔ x ∈ acc ∨ ∃ r ∈ rs, x ∈ r.map Prod.fst := by
    induction rs with
    | nil => simp
    | cons r tl ih =>
      intro acc
      rw [List.foldl_cons, ih, mem_foldl_insertKey]
      simp [or_assoc]
  simpa using main []

/-- The collected unique keys are distinct. -/
theorem getUniqueKeys_nodup (rs : List Rec) : (getUniqueKeys rs).Nodup := by
  have inner : ∀ (r : Rec) (acc : List String), acc.Nodup →
      (r.foldl (fun a kv => insertKey a kv.1) acc).Nodup := by
    intro r
    induction r with
    | nil => intro acc h; simpa using h
    | cons kv tl ih =>
      intro acc h
      rw [List.foldl_cons]
      exact ih _ (insertKey_nodup acc kv.1 h)
  have main : ∀ (l : List Rec) (acc : List String), acc.Nodup →
      (l.foldl (fun acc item => item.foldl (fun a kv => insertKey a kv.1) acc) acc).Nodup := by
    intro l
    induction l with
    | nil => intro acc h; simpa using h
    | cons r tl ih =>
      intro acc h
      rw [List.foldl_cons]
      exact ih _ (inner r acc h)
  exact main rs [] List.nodup_nil

/-- `x || ''` is the identity on string values. -/
theorem jsOr_str (s : String) : jsOr (.str s) (.str "") = .str s := by
  by_cases h : s = "" <;> simp [jsOr, Scalar.truthy, h]

/-- JavaScript object assignment with a fresh key appends the pair. -/
theorem jsObjInsert_fresh (obj : Rec) (k : String) (v : Scalar)
    (h : ∀ p ∈ obj, p.1 ≠ k) :
    jsObjInsert obj k v = obj ++ [(k, v)] := by
  rw [jsObjInsert, if_neg]
  simp only [List.any_eq_true, decide_eq_true_eq]
  rintro ⟨p, hp, he⟩
  exact h p hp he

/-- The header-reduce of `convertValuesToObjects` over pairwise-distinct,
fresh header names builds the indexed pair list in order. -/
theorem buildObjAux_eq (row : Row) :
    ∀ (hs : List Scalar) (obj : Rec) (i : Nat),
      (∀ h ∈ hs, ∀ p ∈ obj, p.1 ≠ h.jsToString) →
      (hs.map Scalar.jsToString).Nodup →
      buildObjAux row obj i hs
        = obj ++ (List.range hs.length).map
            (fun j => ((hs.getD j .null).jsToString, rowCell row (i + j))) := by
  intro hs
  induction hs with
  | nil => intro obj i _ _; simp [buildObjAux]
  | cons h tl ih =>
    intro obj i hfresh hnd
    rw [buildObjAux, jsObjInsert_fresh _ _ _ (hfresh h (List.mem_cons_self h tl))]
    have hnd' : (tl.map Scalar.jsToString).Nodup := by
      rw [List.map_cons, List.nodup_cons] at hnd
      exact hnd.2
    have hnotin : h.jsToString ∉ tl.map Scalar.jsToString := by
      rw [List.map_cons, List.nodup_cons] at hnd
      exact hnd.1
    have hfresh' : ∀ h' ∈ tl, ∀ p ∈ obj ++ [(h.jsToString, rowCell row i)],
        p.1 ≠ h'.jsToString := by
      intro h' hh' p hp
      rcases List.mem_append.mp hp with hpo | hps
      · exact hfresh h' (List.mem_cons_of_mem h hh') p hpo
      · have hpe : p = (h.jsToString, rowCell row i) := by simpa using hps
        rw [hpe]
        intro hcontra
        apply hnotin
        rw [show h.jsToString = h'.jsToString from hcontra]
        exact List.mem_map_of_mem Scalar.jsToString hh'
    rw [ih _ (i + 1) hfresh' hnd']
    rw [List.append_assoc, List.singleton_append, List.length_cons,
      List.range_succ_eq_map, List.map_cons, List.map_map]
    have htail : (List.range tl.length).map
          ((fun j => (((h :: tl).getD j Scalar.null).jsToString, rowCell row (i + j)))
            ∘ Nat.succ)
        = (List.range tl.length).map
          (fun j => ((tl.getD j Scalar.null).jsToString, rowCell row (i + 1 + j))) := by
      apply List.map_congr_left
      intro j hj
      simp only [Function.comp_apply, Nat.succ_eq_add_one, List.getD_cons_succ]
      have e1 : i + (j + 1) = i + 1 + j := by omega
      rw [e1]
    rw [htail]
    rfl

/-- Mapping an index function of `getD` over the index range is mapping over
the list. -/
theorem range_map_getD (l : List α) (g : α → β) (d : α) :
    (List.range l.length).map (fun j => g (l.getD j d)) = l.map g := by
  induction l with
  | nil => simp
  | cons a tl ih =>
    rw [List.length_cons, List.range_succ_eq_map, List.map_cons, List.map_map,
      List.map_cons]
    have htail : (List.range tl.length).map ((fun j => g ((a :: tl).getD j d)) ∘ Nat.succ)
        = (List.range tl.length).map (fun j => g (tl.getD j d)) := by
      apply List.map_congr_left
      intro j hj
      simp only [Function.comp_apply, Nat.succ_eq_add_one, List.getD_cons_succ]
    rw [htail, ih]
    rfl

/-- In-range `getD` agrees with indexing. -/
theorem getD_eq_getElem_of_lt (l : List α) (j : Nat) (d : α) (h : j < l.length) :
    l.getD j d = l[j] := by
  rw [List.getD_eq_getElem?_getD, List.getElem?_eq_getElem h]
  rfl

/-- The grid-path round trip: converting string-valued records to a grid and
back yields the records normalized to the full key union. -/
theorem grid_roundtrip_aux (rs : List Rec)
    (hstr : ∀ r ∈ rs, ∀ kv ∈ r, kv.2.isStr = true) :
    convertValuesToObjects (recordsToGrid rs) = normalizeRecords rs := by
  cases hrs : rs with
  | nil => rfl
  | cons r0 rtl =>
    rw [← hrs]
    have hgrid : recordsToGrid rs
        = ((getUniqueKeys rs).map Scalar.str) ::
            rs.map fun r => (getUniqueKeys rs).map fun k => (r.lookup k).getD (.str "") := by
      rw [hrs]
      rfl
    rw [hgrid, convertValuesToObjects, List.map_map, normalizeRecords]
    apply List.map_congr_left
    intro r hr
    simp only [Function.comp_apply]
    have hmapmap : ((getUniqueKeys rs).map Scalar.str).map Scalar.jsToString
        = getUniqueKeys rs := by
      have hcomp : Scalar.jsToString ∘ Scalar.str = id := funext fun _ => rfl
      rw [List.map_map, hcomp, List.map_id]
    rw [buildObjAux_eq _ _ [] 0 (fun h _ p hp => absurd hp (List.not_mem_nil p))
      (by rw [hmapmap]; exact getUniqueKeys_nodup rs)]
    rw [List.nil_append, List.length_map]
    have hcell : ∀ j ∈ List.range (getUniqueKeys rs).length,
        ((((getUniqueKeys rs).map Scalar.str).getD j Scalar.null).jsToString,
            rowCell ((getUniqueKeys rs).map fun k => (r.lookup k).getD (.str "")) (0 + j))
          = (fun k => (k, (r.lookup k).getD (.str ""))) ((getUniqueKeys rs).getD j "") := by
      intro j hj
      have hjlt : j < (getUniqueKeys rs).length := List.mem_range.mp hj
      have h1 : ((getUniqueKeys rs).map Scalar.str).getD j Scalar.null
          = Scalar.str ((getUniqueKeys rs).getD j "") := by
        rw [getD_eq_getElem_of_lt _ j _ (by simpa using hjlt), List.getElem_map,
          getD_eq_getElem_of_lt _ j _ hjlt]
      have hjsor : jsOr ((r.lookup ((getUniqueKeys rs).getD j "")).getD (.str "")) (.str "")
          = (r.lookup ((getUniqueKeys rs).getD j "")).getD (.str "") := by
        cases hlu : r.lookup ((getUniqueKeys rs).getD j "") with
        | none => simpa using jsOr_str ""
        | some v =>
          have hv := hstr r hr (_, v) (lookup_mem hlu)
          simp only [Option.getD_some]
          cases v with
          | str s => exact jsOr_str s
          | num n => simp [Scalar.isStr] at hv
          | boolean b => simp [Scalar.isStr] at hv
          | null => simp [Scalar.isStr] at hv
      have h2 : rowCell ((getUniqueKeys rs).map fun k => (r.lookup k).getD (.str "")) (0 + j)
          = (r.lookup ((getUniqueKeys rs).getD j "")).getD (.str "") := by
        rw [rowCell, Nat.zero_add, List.get?_eq_getElem?, List.getElem?_map,
          List.getElem?_eq_getElem hjlt]
        simp only [Option.map_some', Option.getD_some]
        rw [← getD_eq_getElem_of_lt _ j "" hjlt]
        exact hjsor
      rw [h1, h2]
      rfl
    rw [List.map_congr_left hcell]
    exact range_map_getD (getUniqueKeys rs) (fun k => (k, (r.lookup k).getD (.str ""))) ""


/-- Quote doubling introduces no character that was not already present. -/
theorem mem_escapeQuotes {a : Char} : ∀ {s : List Char}, a ∈ escapeQuotes s → a ∈ s := by
  intro s
  induction s with
  | nil => intro h; simpa [escapeQuotes] using h
  | cons c cs ih =>
    intro h
    by_cases hc : c = '"'
    · rw [escapeQuotes, if_pos hc] at h
      rcases List.mem_cons.mp h with h1 | h1
      · rw [h1, hc]; exact List.mem_cons_self _ _
      · rcases List.mem_cons.mp h1 with h2 | h2
        · rw [h2, hc]; exact List.mem_cons_self _ _
        · exact List.mem_cons_of_mem c (ih h2)
    · rw [escapeQuotes, if_neg hc] at h
      rcases List.mem_cons.mp h with h1 | h1
      · rw [h1]; exact List.mem_cons_self _ _
      · exact List.mem_cons_of_mem c (ih h1)

/-- Trimming keeps only characters of the original list. -/
theorem mem_trimChars {a : Char} {s : List Char} (h : a ∈ trimChars s) : a ∈ s := by
  unfold trimChars at h
  rw [List.mem_reverse] at h
  have h1 := (List.dropWhile_sublist (l := (s.dropWhile jsWhitespace).reverse)
    (p := jsWhitespace)).subset h
  rw [List.mem_reverse] at h1
  exact (List.dropWhile_sublist (p := jsWhitespace)).subset h1

/-- A separator-free list splits into itself. -/
theorem splitOnChar_no_sep (sep : Char) :
    ∀ (a : List Char), sep ∉ a → splitOnChar sep a = [a] := by
  intro a
  induction a with
  | nil => intro _; rfl
  | cons c a' ih =>
    intro hmem
    have hc : c ≠ sep := fun h => hmem (h ▸ List.mem_cons_self c a')
    rw [splitOnChar, if_neg hc, ih (fun h => hmem (List.mem_cons_of_mem c h))]

/-- Splitting at the first separator: a separator-free prefix becomes the first
chunk. -/
theorem splitOnChar_append_sep (sep : Char) :
    ∀ (a rest : List Char), sep ∉ a →
      splitOnChar sep (a ++ sep :: rest) = a :: splitOnChar sep rest := by
  intro a
  induction a with
  | nil =>
    intro rest _
    rw [List.nil_append, splitOnChar, if_pos rfl]
  | cons c a' ih =>
    intro rest hmem
    have hc : c ≠ sep := fun h => hmem (h ▸ List.mem_cons_self c a')
    rw [List.cons_append, splitOnChar, if_neg hc,
      ih rest (fun h => hmem (List.mem_cons_of_mem c h))]

/-- Splitting inverts joining for separator-free chunks. -/
theorem split_intercalate (sep : Char) :
    ∀ (xss : List (List Char)), xss ≠ [] → (∀ xs ∈ xss, sep ∉ xs) →
      splitOnChar sep (intercalateChar sep xss) = xss := by
  intro xss
  induction xss with
  | nil => intro h _; exact absurd rfl h
  | cons x tl ih =>
    intro _ hsep
    cases tl with
    | nil =>
      rw [intercalateChar]
      exact splitOnChar_no_sep sep x (hsep x (List.mem_cons_self x []))
    | cons y tl' =>
      rw [intercalateChar,
        splitOnChar_append_sep sep x _ (hsep x (List.mem_cons_self x (y :: tl'))),
        ih (List.cons_ne_nil y tl') (fun xs hxs => hsep xs (List.mem_cons_of_mem x hxs))]

/-- Splitting a newline-terminated chunk sequence recovers the chunks plus one
final empty chunk. -/
theorem splitOnChar_chunks (sep : Char) :
    ∀ (chunks : List (List Char)), (∀ c ∈ chunks, sep ∉ c) →
      splitOnChar sep ((chunks.map (· ++ [sep])).flatten) = chunks ++ [[]] := by
  intro chunks
  induction chunks with
  | nil => intro _; rfl
  | cons c tl ih =>
    intro hsep
    rw [List.map_cons, List.flatten_cons, List.append_assoc, List.singleton_append,
      splitOnChar_append_sep sep c _ (hsep c (List.mem_cons_self c tl)),
      ih (fun x hx => hsep x (List.mem_cons_of_mem c hx))]
    rfl

/-- Every character of a join is the separator or from some part. -/
theorem mem_intercalateChar {sep x : Char} :
    ∀ {xss : List (List Char)}, x ∈ intercalateChar sep xss →
      x = sep ∨ ∃ xs ∈ xss, x ∈ xs := by
  intro xss
  induction xss with
  | nil => intro h; simp [intercalateChar] at h
  | cons a tl ih =>
    intro h
    cases tl with
    | nil =>
      rw [intercalateChar] at h
      exact Or.inr ⟨a, List.mem_cons_self a [], h⟩
    | cons b tl' =>
      rw [intercalateChar] at h
      rcases List.mem_append.mp h with ha | hrest
      · exact Or.inr ⟨a, List.mem_cons_self a _, ha⟩
      · rcases List.mem_cons.mp hrest with hx | hx
        · exact Or.inl hx
        · rcases ih hx with hs | ⟨xs, hxs, hin⟩
          · exact Or.inl hs
          · exact Or.inr ⟨xs, List.mem_cons_of_mem a hxs, hin⟩

/-- A join with a non-empty part is non-empty. -/
theorem intercalateChar_ne_nil (sep : Char) (xss : List (List Char))
    (h : ∃ p ∈ xss, p ≠ []) : intercalateChar sep xss ≠ [] := by
  obtain ⟨p, hp, hpne⟩ := h
  cases xss with
  | nil => simp at hp
  | cons a tl =>
    cases tl with
    | nil =>
      rw [intercalateChar]
      have : p = a := by simpa using hp
      rw [← this]
      exact hpne
    | cons b tl' =>
      rw [intercalateChar]
      intro hcon
      rcases List.append_eq_nil.mp hcon with ⟨-, h2⟩
      exact List.cons_ne_nil sep _ h2

/-- Unquoting inverts the quote-wrap-and-double encoding of a cell. -/
theorem unquote_quote (s : List Char) :
    unquoteField ('"' :: escapeQuotes s ++ ['"']) = s := by
  rw [unquoteField, if_pos]
  · show unescapeQuotes ((escapeQuotes s ++ ['"']).dropLast) = s
    rw [List.dropLast_concat]
    exact unescape_escape s
  · refine ⟨rfl, ?_, ?_⟩
    · rw [show ('"' :: escapeQuotes s ++ ['"']) = ('"' :: escapeQuotes s) ++ ['"'] from rfl,
        List.getLast?_concat]
    · simp

/-- A quote-free field unquotes to itself. -/
theorem unquoteField_id (f : List Char) (h : '"' ∉ f) : unquoteField f = f := by
  rw [unquoteField, if_neg]
  rintro ⟨h1, -, -⟩
  cases f with
  | nil => simp at h1
  | cons c tl =>
    have : c = '"' := by simpa using h1
    exact h (this ▸ List.mem_cons_self c tl)

/-- Filtering out empty chunks from non-empty ones plus the trailing empty
chunk keeps exactly the non-empty ones. -/
theorem filter_ne_nil_chunks (H : List Char) (ls : List (List Char))
    (hH : H ≠ []) (hl : ∀ l ∈ ls, l ≠ []) :
    ((H :: ls) ++ [[]]).filter (fun l => l ≠ []) = H :: ls := by
  rw [List.cons_append, List.filter_cons, if_pos (by simpa using hH),
    List.filter_append]
  have h1 : ls.filter (fun l => l ≠ []) = ls :=
    List.filter_eq_self.mpr (fun a ha => by simpa using hl a ha)
  have h2 : ([[]] : List (List Char)).filter (fun l => l ≠ []) = [] := rfl
  rw [h1, h2, List.append_nil]

/-- Zipping a list with a mapped copy of itself pairs each element with its
image. -/
theorem zip_self_map (l : List α) (g : α → β) :
    l.zip (l.map g) = l.map fun a => (a, g a) := by
  have h := List.zip_map' id g l
  simpa using h

/-- Parsing a CSV text made of newline-free, non-empty, newline-terminated
lines recovers exactly those lines. -/
theorem csvLines_eval (H : List Char) (lns : List (List Char))
    (hHnl : '\n' ∉ H) (hHne : H ≠ []) (hnl : ∀ l ∈ lns, '\n' ∉ l)
    (hlne : ∀ l ∈ lns, l ≠ []) :
    csvToJson (String.mk (((H :: lns).map (· ++ ['\n'])).flatten))
      = csvLinesToRecords (H :: lns) := by
  have hall : ∀ c ∈ H :: lns, '\n' ∉ c := by
    intro c hc
    rcases List.mem_cons.mp hc with h | h
    · rw [h]; exact hHnl
    · exact hnl c h
  rw [csvToJson]
  congr 1
  have hdata : (String.mk (((H :: lns).map (· ++ ['\n'])).flatten)).data
      = ((H :: lns).map (· ++ ['\n'])).flatten := rfl
  rw [hdata, splitOnChar_chunks '\n' (H :: lns) hall,
    filter_ne_nil_chunks H lns hHne hlne]

/-- The CSV-path round trip: serializing good records (non-empty, string
values, trim-fixed comma/newline-free keys and values, quote-free keys,
values within the cell limit) and parsing back yields the records normalized
to the full key union. -/
theorem csv_roundtrip_aux (rs : List Rec)
    (hne : rs ≠ [])
    (hrec : ∀ r ∈ rs, r ≠ [])
    (hkey : ∀ r ∈ rs, ∀ kv ∈ r, kv.1 ≠ "" ∧ trimChars kv.1.data = kv.1.data
        ∧ ',' ∉ kv.1.data ∧ '\n' ∉ kv.1.data ∧ '"' ∉ kv.1.data)
    (hval : ∀ r ∈ rs, ∀ kv ∈ r, kv.2.isStr = true
        ∧ trimChars kv.2.jsToString.data = kv.2.jsToString.data
        ∧ kv.2.jsToString.data.length ≤ 50000
        ∧ ',' ∉ kv.2.jsToString.data ∧ '\n' ∉ kv.2.jsToString.data) :
    csvToJson (makeCSVFromData rs 50000) = normalizeRecords rs := by
  have hkeyprop : ∀ k ∈ getUniqueKeys rs, k ≠ "" ∧ trimChars k.data = k.data
      ∧ ',' ∉ k.data ∧ '\n' ∉ k.data ∧ '"' ∉ k.data := by
    intro k hk
    rcases (mem_getUniqueKeys rs k).mp hk with ⟨r, hr, hkr⟩
    rcases List.mem_map.mp hkr with ⟨kv, hkv, hfst⟩
    have hh := hkey r hr kv hkv
    rw [hfst] at hh
    exact hh
  have hksne : getUniqueKeys rs ≠ [] := by
    obtain ⟨r0, rtl, hrs⟩ : ∃ r0 rtl, rs = r0 :: rtl := by
      cases rs with
      | nil => exact absurd rfl hne
      | cons a b => exact ⟨a, b, rfl⟩
    have hr0 : r0 ∈ rs := by rw [hrs]; exact List.mem_cons_self r0 rtl
    obtain ⟨kv0, ktl, hr0e⟩ : ∃ kv0 ktl, r0 = kv0 :: ktl := by
      cases hx : r0 with
      | nil => exact absurd hx (hrec r0 hr0)
      | cons a b => exact ⟨a, b, rfl⟩
    have hmem : kv0.1 ∈ getUniqueKeys rs := by
      refine (mem_getUniqueKeys rs kv0.1).mpr ⟨r0, hr0, ?_⟩
      refine List.mem_map_of_mem Prod.fst ?_
      rw [hr0e]
      exact List.mem_cons_self kv0 ktl
    intro hcon
    rw [hcon] at hmem
    exact List.not_mem_nil _ hmem
  have hcellval : ∀ r ∈ rs, ∀ k ∈ getUniqueKeys rs,
      (cellChars r k 50000 = [] ∧ r.lookup k = none)
      ∨ ∃ s, r.lookup k = some (.str s)
          ∧ cellChars r k 50000 = '"' :: escapeQuotes s.data ++ ['"'] := by
    intro r hr k hk
    cases hlu : r.lookup k with
    | none =>
      refine Or.inl ⟨?_, rfl⟩
      rw [cellChars, hlu]
    | some v =>
      obtain ⟨hstr, htrim, hlen, -, -⟩ := hval r hr (k, v) (lookup_mem hlu)
      cases v with
      | str s =>
        refine Or.inr ⟨s, rfl, ?_⟩
        have htk : (trimChars (convertToSafeValue (Scalar.str s)).jsToString.data).take 50000
            = s.data := by
          show (trimChars s.data).take 50000 = s.data
          rw [show trimChars s.data = s.data from htrim]
          exact List.take_of_length_le hlen
        simp only [cellChars, hlu, htk]
      | num n => simp [Scalar.isStr] at hstr
      | boolean b => simp [Scalar.isStr] at hstr
      | null => simp [Scalar.isStr] at hstr
  have hHnl : '\n' ∉ intercalateChar ',' ((getUniqueKeys rs).map String.data) := by
    intro hmem
    rcases mem_intercalateChar hmem with heq | ⟨xs, hxs, hin⟩
    · exact absurd heq (by decide)
    · rcases List.mem_map.mp hxs with ⟨k, hk, hkd⟩
      rw [← hkd] at hin
      exact (hkeyprop k hk).2.2.2.1 hin
  have hHne : intercalateChar ',' ((getUniqueKeys rs).map String.data) ≠ [] := by
    apply intercalateChar_ne_nil
    obtain ⟨k0, ktl, hkse⟩ : ∃ k0 ktl, getUniqueKeys rs = k0 :: ktl := by
      cases hx : getUniqueKeys rs with
      | nil => exact absurd hx hksne
      | cons a b => exact ⟨a, b, rfl⟩
    have hk0 : k0 ∈ getUniqueKeys rs := by
      rw [hkse]
      exact List.mem_cons_self k0 ktl
    refine ⟨k0.data, List.mem_map_of_mem String.data hk0, ?_⟩
    intro hd
    apply (hkeyprop k0 hk0).1
    show k0 = ""
    calc k0 = String.mk k0.data := rfl
    _ = String.mk [] := by rw [hd]
    _ = "" := rfl
  have hlinesnl : ∀ l ∈ rs.map (fun r => intercalateChar ','
      ((getUniqueKeys rs).map (fun col => cellChars r col 50000))), '\n' ∉ l := by
    intro l hl
    rcases List.mem_map.mp hl with ⟨r, hr, hlr⟩
    rw [← hlr]
    intro hmem
    rcases mem_intercalateChar hmem with heq | ⟨xs, hxs, hin⟩
    · exact absurd heq (by decide)
    · rcases List.mem_map.mp hxs with ⟨k, hk, hkc⟩
      rw [← hkc] at hin
      rcases hcellval r hr k hk with ⟨hnil, -⟩ | ⟨s, hlu, hq⟩
      · rw [hnil] at hin
        exact List.not_mem_nil _ hin
      · rw [hq] at hin
        rcases List.mem_cons.mp hin with h1 | h1
        · exact absurd h1 (by decide)
        · rcases List.mem_append.mp h1 with h2 | h2
          · obtain ⟨-, -, -, -, hnl2⟩ := hval r hr (k, .str s) (lookup_mem hlu)
            exact hnl2 (mem_escapeQuotes h2)
          · exact absurd (List.mem_singleton.mp h2) (by decide)
  have hlinesne : ∀ l ∈ rs.map (fun r => intercalateChar ','
      ((getUniqueKeys rs).map (fun col => cellChars r col 50000))), l ≠ [] := by
    intro l hl
    rcases List.mem_map.mp hl with ⟨r, hr, hlr⟩
    rw [← hlr]
    apply intercalateChar_ne_nil
    obtain ⟨kv0, ktl, hr0e⟩ : ∃ kv0 ktl, r = kv0 :: ktl := by
      cases hx : r with
      | nil => exact absurd hx (hrec r hr)
      | cons a b => exact ⟨a, b, rfl⟩
    have hkv0mem : kv0 ∈ r := by
      rw [hr0e]
      exact List.mem_cons_self kv0 ktl
    have hkmem : kv0.1 ∈ getUniqueKeys rs :=
      (mem_getUniqueKeys rs kv0.1).mpr ⟨r, hr, List.mem_map_of_mem Prod.fst hkv0mem⟩
    refine ⟨cellChars r kv0.1 50000, List.mem_map_of_mem _ hkmem, ?_⟩
    rcases hcellval r hr kv0.1 hkmem with ⟨-, hlunone⟩ | ⟨s, -, hq⟩
    · obtain ⟨v', hv'⟩ := lookup_isSome_of_mem (show (kv0.1, kv0.2) ∈ r from hkv0mem)
      rw [hlunone] at hv'
      exact absurd hv' (by simp)
    · rw [hq]
      exact List.cons_ne_nil _ _
  have hheader : (splitOnChar ','
      (intercalateChar ',' ((getUniqueKeys rs).map String.data))).map
      (fun f => String.mk (trimChars (unquoteField f))) = getUniqueKeys rs := by
    rw [split_intercalate ',' ((getUniqueKeys rs).map String.data)
      (fun h => hksne (List.map_eq_nil_iff.mp h))
      (fun xs hxs => by
        rcases List.mem_map.mp hxs with ⟨k, hk, hkd⟩
        rw [← hkd]
        exact (hkeyprop k hk).2.2.1)]
    rw [List.map_map]
    refine (List.map_congr_left ?_).trans (List.map_id _)
    intro k hk
    simp only [Function.comp_apply]
    rw [unquoteField_id _ (hkeyprop k hk).2.2.2.2, (hkeyprop k hk).2.1]
    rfl
  have hfields : ∀ r ∈ rs,
      (splitOnChar ',' (intercalateChar ','
          ((getUniqueKeys rs).map (fun col => cellChars r col 50000)))).map
        (fun f => String.mk (unquoteField f))
        = (getUniqueKeys rs).map (fun k => ((r.lookup k).getD (.str "")).jsToString) := by
    intro r hr
    rw [split_intercalate ',' ((getUniqueKeys rs).map (fun col => cellChars r col 50000))
      (fun h => hksne (List.map_eq_nil_iff.mp h))
      (fun xs hxs => by
        rcases List.mem_map.mp hxs with ⟨k, hk, hkc⟩
        rw [← hkc]
        rcases hcellval r hr k hk with ⟨hnil, -⟩ | ⟨s, hlu, hq⟩
        · rw [hnil]
          exact List.not_mem_nil ','
        · rw [hq]
          intro hmem
          rcases List.mem_cons.mp hmem with h1 | h1
          · exact absurd h1 (by decide)
          · rcases List.mem_append.mp h1 with h2 | h2
            · obtain ⟨-, -, -, hcomma, -⟩ := hval r hr (k, .str s) (lookup_mem hlu)
              exact hcomma (mem_escapeQuotes h2)
            · exact absurd (List.mem_singleton.mp h2) (by decide))]
    rw [List.map_map]
    apply List.map_congr_left
    intro k hk
    simp only [Function.comp_apply]
    rcases hcellval r hr k hk with ⟨hnil, hlu⟩ | ⟨s, hlu, hq⟩
    · rw [hnil, hlu]
      rfl
    · rw [hq, unquote_quote, hlu]
      rfl
  have hcsv : makeCSVFromData rs 50000
      = String.mk ((((intercalateChar ',' ((getUniqueKeys rs).map String.data)) ::
          rs.map (fun r => intercalateChar ','
            ((getUniqueKeys rs).map (fun col => cellChars r col 50000)))).map
          (· ++ ['\n'])).flatten) := by
    obtain ⟨r0, rtl, hrs⟩ : ∃ r0 rtl, rs = r0 :: rtl := by
      cases rs with
      | nil => exact absurd rfl hne
      | cons a b => exact ⟨a, b, rfl⟩
    rw [hrs]
    rfl
  rw [hcsv, csvLines_eval _ _ hHnl hHne hlinesnl hlinesne]
  simp only [csvLinesToRecords]
  rw [hheader, List.map_map, normalizeRecords]
  apply List.map_congr_left
  intro r hr
  simp only [Function.comp_apply]
  rw [hfields r hr, zip_self_map, List.map_map]
  apply List.map_congr_left
  intro k hk
  simp only [Function.comp_apply]
  cases hlu : r.lookup k with
  | none => rfl
  | some v =>
    obtain ⟨hstr, -, -, -, -⟩ := hval r hr (k, v) (lookup_mem hlu)
    cases v with
    | str s => rfl
    | num n => simp [Scalar.isStr] at hstr
    | boolean b => simp [Scalar.isStr] at hstr
    | null => simp [Scalar.isStr] at hstr

/-- C6 counterexample.  The record list `[{a: 0}]` (scalar-only, no
newline/comma anywhere, no missing fields, so it equals its own
normalization) does not round-trip: the grid path turns the falsy `0` into
`""` via `row[index] || ''`, and the CSV path turns it into the string `"0"`. -/
theorem roundtrip_counterexample :
    convertValuesToObjects (recordsToGrid [[("a", Scalar.num 0)]])
        ≠ [[("a", Scalar.num 0)]]
      ∧ normalizeRecords [[("a", Scalar.num 0)]] = [[("a", Scalar.num 0)]]
      ∧ csvToJson (makeCSVFromData [[("a", Scalar.num 0)]] 50000)
        ≠ [[("a", Scalar.num 0)]] := by
  refine ⟨by decide, by decide, by decide⟩

/-- C6 amended.  For every non-empty records value whose records are
non-empty, whose keys are non-empty, trim-fixed and free of commas, newlines
and double quotes, and whose values are strings that are trim-fixed, at most
the cell limit long and free of commas and newlines, both round trips hold up
to empty-string normalization of missing fields:
`gridToRecords(recordsToGrid(r))` and `csvToRecords(recordsToCsv(r))` both
equal the normalization of `r`. -/
theorem roundtrip_amended (rs : List Rec)
    (hne : rs ≠ [])
    (hrec : ∀ r ∈ rs, r ≠ [])
    (hkey : ∀ r ∈ rs, ∀ kv ∈ r, kv.1 ≠ "" ∧ trimChars kv.1.data = kv.1.data
        ∧ ',' ∉ kv.1.data ∧ '\n' ∉ kv.1.data ∧ '"' ∉ kv.1.data)
    (hval : ∀ r ∈ rs, ∀ kv ∈ r, kv.2.isStr = true
        ∧ trimChars kv.2.jsToString.data = kv.2.jsToString.data
        ∧ kv.2.jsToString.data.length ≤ 50000
        ∧ ',' ∉ kv.2.jsToString.data ∧ '\n' ∉ kv.2.jsToString.data) :
    convertValuesToObjects (recordsToGrid rs) = normalizeRecords rs
      ∧ csvToJson (makeCSVFromData rs 50000) = normalizeRecords rs := by
  constructor
  · exact grid_roundtrip_aux rs (fun r hr kv hkv => (hval r hr kv hkv).1)
  · exact csv_roundtrip_aux rs hne hrec hkey hval

/-- Witness for C6 (amended) at two records with heterogeneous keys. -/
theorem roundtrip_amended_witness :
    convertValuesToObjects (recordsToGrid
        [[("name", Scalar.str "John"), ("age", Scalar.str "30")],
          [("name", Scalar.str "Jane"), ("city", Scalar.str "SF")]])
      = normalizeRecords
        [[("name", Scalar.str "John"), ("age", Scalar.str "30")],
          [("name", Scalar.str "Jane"), ("city", Scalar.str "SF")]]
    ∧ csvToJson (makeCSVFromData
        [[("name", Scalar.str "John"), ("age", Scalar.str "30")],
          [("name", Scalar.str "Jane"), ("city", Scalar.str "SF")]] 50000)
      = normalizeRecords
        [[("name", Scalar.str "John"), ("age", Scalar.str "30")],
          [("name", Scalar.str "Jane"), ("city", Scalar.str "SF")]] :=
  roundtrip_amended
    [[("name", Scalar.str "John"), ("age", Scalar.str "30")],
      [("name", Scalar.str "Jane"), ("city", Scalar.str "SF")]]
    (by decide) (by decide) (by decide) (by decide)

end AkSheets
